import Mathlib

/-!
Shallow embedding of `src/main.js` of the Applyomatic repository
(a CV/covering-letter drafting pipeline), together with theorems
settling the specification claims about it.

External effects (the OpenAI calls, terminal I/O) are modelled by
passing their results in as explicit data: relevance scores arrive
paired with the items they score, the operator's terminal input is a
list of lines, and the model's response text is a string argument.
-/

namespace Applyomatic

/-- A CV improvement suggestion, as produced by `suggestCVImprovements`
(main.js, suggestions schema: `type`, `location`, `suggestion`). -/
structure Suggestion where
  type : String
  location : String
  suggestion : String
deriving DecidableEq, Repr

/-- A past-role record from the CV base data (main.js `pastJobRoles`
entries: `jobTitle`, `from`, `to`, optional `description`).  The JS
field names `from`/`to` are reserved or awkward in Lean, so they are
rendered `fromDate`/`toDate`. -/
structure PastRole where
  jobTitle : String
  fromDate : String
  toDate : String
  description : Option String
deriving DecidableEq, Repr

/-- A skill or achievement paired with the relevance score the
Relevance Scorer returned for it (main.js `skillsWithRelevance` /
`achievementsWithRelevance` entries, rationale omitted as it plays no
further role). -/
structure ScoredItem where
  text : String
  score : Int
deriving DecidableEq, Repr

/-- main.js line 217: `function byScoreDesc(a, b) { return b.score - a.score; }`.
`Array.prototype.sort` (a stable sort per ECMAScript) keeps `a` no later
than `b` exactly when the comparator is `≤ 0`, i.e. when
`b.score ≤ a.score`; this is that relation as a `Bool`. -/
def byScoreDesc (a b : ScoredItem) : Bool :=
  decide (b.score ≤ a.score)

/-- main.js line 218:
`function byStartDateDesc(a, b) { return (b.from || '').localeCompare(a.from || ''); }`.
Stable sort relation: `a` may stay before `b` iff `b.from ≤ a.from`
(locale comparison modelled as lexicographic string order). -/
def byStartDateDesc (a b : PastRole) : Bool :=
  decide (b.fromDate ≤ a.fromDate)

/-- main.js lines 465-466 (and 478-479 for achievements):
`skillsWithRelevance.sort(byScoreDesc); ... .slice(0, 10)`.
JS `Array.prototype.sort` is a stable sort, modelled by `List.mergeSort`. -/
def selectTopItems (xs : List ScoredItem) : List ScoredItem :=
  (xs.mergeSort byScoreDesc).take 10

/-- main.js line 466: `cv.skills = skillsWithRelevance.slice(0, 10).map(s => s.skill)`. -/
def draftCVSkills (xs : List ScoredItem) : List String :=
  (selectTopItems xs).map ScoredItem.text

/-- main.js lines 489-493 (role loop body of `draftCV`):
`const includeRole = { ...role }; if (score < 80) { delete includeRole.description; }`. -/
def includeRole (role : PastRole) (score : Int) : PastRole :=
  if score < 80 then { role with description := none } else role

/-- main.js lines 484-497: the past-role phase of `draftCV`.  Each role
(paired with the score the Relevance Scorer returned for it) passes
through `includeRole`, then the collection is sorted by start date
descending (`rolesToInclude.sort(byStartDateDesc)`) and becomes
`cv.pastJobRoles`, the value handed to the Document Composer. -/
def draftCVPastJobRoles (scoredRoles : List (PastRole × Int)) : List PastRole :=
  ((scoredRoles.map fun p => includeRole p.1 p.2).mergeSort byStartDateDesc)

/-! ### The interactive review loop (main.js lines 312-412) -/

/-- JavaScript `String.prototype.trim()`: remove whitespace from both ends
(implemented structurally on the character list so that it evaluates inside
the kernel). -/
def jsTrim (s : String) : String :=
  ⟨((s.data.dropWhile Char.isWhitespace).reverse.dropWhile Char.isWhitespace).reverse⟩

/-- Helper for `jsSplit`: split a character list at every separator
character, `acc` holding the current chunk reversed. -/
def jsSplitAux (p : Char → Bool) : List Char → List Char → List (List Char)
  | [], acc => [acc.reverse]
  | c :: cs, acc =>
    if p c then acc.reverse :: jsSplitAux p cs [] else jsSplitAux p cs (c :: acc)

/-- JavaScript `String.prototype.split` with a single-character-class
separator: chunks between separator characters, empty chunks included
(`"a,,b".split(',')` is `["a","","b"]`, `"".split(',')` is `[""]`). -/
def jsSplit (s : String) (p : Char → Bool) : List String :=
  (jsSplitAux p s.data []).map fun cs => ⟨cs⟩

/-- Value of a run of decimal digits, most significant first. -/
def digitsVal (ds : List Char) : Nat :=
  ds.foldl (fun n c => 10 * n + (c.toNat - 48)) 0

/-- JavaScript `parseInt(s, 10)`: skip leading whitespace, accept an optional
sign, read the longest leading run of decimal digits (trailing garbage is
ignored), and yield `NaN` (here `none`) when there is no digit. -/
def jsParseInt (s : String) : Option Int :=
  match s.data.dropWhile Char.isWhitespace with
  | '-' :: cs =>
    let ds := cs.takeWhile Char.isDigit
    if ds.isEmpty then none else some (-(digitsVal ds : Int))
  | '+' :: cs =>
    let ds := cs.takeWhile Char.isDigit
    if ds.isEmpty then none else some (digitsVal ds)
  | cs =>
    let ds := cs.takeWhile Char.isDigit
    if ds.isEmpty then none else some (digitsVal ds)

/-- main.js line 334: the loop
`for (let i = start; i <= end; i += 1) if (i >= 1 && i <= max) set.add(i - 1);`
for the range `x-y`: the 0-based indices `i - 1` for every `i` with
`min x y ≤ i ≤ max x y` and `1 ≤ i ≤ mx`, in ascending order. -/
def rangeIdxs (x y : Int) (mx : Nat) : List Nat :=
  if max (min x y) 1 ≤ min (max x y) (mx : Int) then
    (List.range (min (max x y) (mx : Int) - max (min x y) 1 + 1).toNat).map
      (fun k : Nat => (max (min x y) 1 - 1 + (k : Int)).toNat)
  else []

/-- main.js lines 325-342 `parseIndexList`, contribution of one
comma-separated part (the JS `part.split('-')` destructures the first two
chunks).  A part containing `-` is a range `a-b`: when both ends parse it
contributes `rangeIdxs`.  Otherwise the part is a single index, kept only
when it parses and lies in `[1, mx]`. -/
def parseIndexPart (mx : Nat) (part : String) : List Nat :=
  if part = "" then []
  else if part.data.contains '-' then
    match jsSplit part (fun c => c = '-') with
    | a :: b :: _ =>
      match jsParseInt a, jsParseInt b with
      | some x, some y => rangeIdxs x y mx
      | _, _ => []
    | _ => []
  else
    match jsParseInt part with
    | some n => if 1 ≤ n ∧ n ≤ (mx : Int) then [(n - 1).toNat] else []
    | none => []

/-- main.js lines 325-342 `parseIndexList(inputStr, max)`: split on commas
(the JS separator `/\s*,\s*/` also eats whitespace around each comma, which
cannot occur in the argument the review loop passes and is absorbed by
`jsParseInt`'s whitespace skipping otherwise), collect the contributed
0-based indices into a set (`dedup`), and return them sorted ascending
(`Array.from(set).sort((a, b) => a - b)`; on duplicate-free naturals every
comparison sort agrees, so the kernel-reducible insertion sort stands in
for the engine's sort). -/
def parseIndexList (inputStr : String) (mx : Nat) : List Nat :=
  List.insertionSort (· ≤ ·)
    (((jsSplit inputStr (fun c => c = ',')).flatMap (parseIndexPart mx)).dedup)

/-- main.js line 368: `list = list.filter((_, i) => !idxs.includes(i));` -/
def removeIdxs (l : List Suggestion) (idxs : List Nat) : List Suggestion :=
  (l.enum.filter (fun p => !idxs.contains p.1)).map Prod.snd

/-- main.js lines 372-386, the body of the in-range `e` branch: copy the
element, trim the operator's reply, keep the current text when the trimmed
reply is empty (`if (newSug) item.suggestion = newSug`), and store the
element back at the same index. -/
def applyEdit (l : List Suggestion) (idx : Nat) (reply : String) : List Suggestion :=
  match l[idx]? with
  | none => l
  | some item =>
    let newSug := jsTrim reply
    l.set idx (if newSug = "" then item else { item with suggestion := newSug })

/-- main.js line 358: `const [cmd, restRaw] = line.split(/\s+/, 2)` with
`rest = restRaw || ''`: the first whitespace-separated token and the second
one (or `""`); the 2-element limit drops any further tokens. -/
def splitCmd (line : String) : String × String :=
  match (jsSplit line Char.isWhitespace).filter (fun t => t ≠ "") with
  | [] => ("", "")
  | [c] => (c, "")
  | c :: r :: _ => (c, r)

/-- Outcome of dispatching one (trimmed, non-empty) command line against the
live suggestion list, main.js lines 358-389. -/
inductive StepOut where
  | halt (res : List Suggestion)
  | cont (next : List Suggestion)
  | contEdit (idx : Nat)
deriving DecidableEq, Repr

/-- Dispatch of one command line (already trimmed and non-empty), main.js
lines 358-389: `q` returns `[]`, `c` returns the live list, `d a` empties
the list, `d <idxs>` deletes the parsed in-bounds indices (a no-op when none
parse), `e <n>` enters edit mode when `parseInt(rest) - 1` is an integer
inside `[0, length)` and is otherwise reported and skipped; anything else is
an unknown command and leaves the state unchanged. -/
def stepLine (l : List Suggestion) (line : String) : StepOut :=
  if (splitCmd line).1 = "q" then .halt []
  else if (splitCmd line).1 = "c" then .halt l
  else if (splitCmd line).1 = "d" then
    if (splitCmd line).2 = "a" then .cont []
    else if (parseIndexList (splitCmd line).2 l.length).isEmpty then .cont l
    else .cont (removeIdxs l (parseIndexList (splitCmd line).2 l.length))
  else if (splitCmd line).1 = "e" then
    match jsParseInt (splitCmd line).2 with
    | none => .cont l
    | some n => if n < 1 ∨ (l.length : Int) < n then .cont l else .contEdit (n - 1).toNat
  else .cont l

/-- main.js lines 352-390, the `for (;;)` loop of
`reviewSuggestionsInteractively`.  Operator input is modelled as the list of
lines the terminal would deliver; an in-range `e` command consumes the next
line as the replacement text.  `none` means the input was exhausted before a
terminating `c`/`q` (the real loop would still be blocked reading). -/
def reviewLoop (l : List Suggestion) : List String → Option (List Suggestion)
  | [] => none
  | raw :: rest =>
    if jsTrim raw = "" then reviewLoop l rest
    else
      match stepLine l (jsTrim raw) with
      | .halt res => some res
      | .cont l' => reviewLoop l' rest
      | .contEdit idx =>
        match rest with
        | [] => none
        | reply :: rest2 => reviewLoop (applyEdit l idx reply) rest2

/-- main.js lines 346-394 `reviewSuggestionsInteractively`: copies the
incoming suggestions (`suggestions.map(s => ({ ...s }))`, the identity in a
pure model) and runs the command loop on them. -/
def reviewSuggestionsInteractively (suggestions : List Suggestion) (lines : List String) :
    Option (List Suggestion) :=
  reviewLoop suggestions lines

/-- A review-session transcript evaluator that mirrors `reviewLoop` except
that the terminating commands `q`/`c` are not part of a transcript (they
yield `none`) and exhausting the input yields the live list reached so far.
`runCmds l cmds = some l'` states precisely that `cmds` is a sequence of
non-terminating review commands (deletes, edits with their replies, blank or
unknown lines) driving the live list from `l` to `l'`. -/
def runCmds (l : List Suggestion) : List String → Option (List Suggestion)
  | [] => some l
  | raw :: rest =>
    if jsTrim raw = "" then runCmds l rest
    else
      match stepLine l (jsTrim raw) with
      | .halt _ => none
      | .cont l' => runCmds l' rest
      | .contEdit idx =>
        match rest with
        | [] => none
        | reply :: rest2 => runCmds (applyEdit l idx reply) rest2

/-! ### `randInt` and the reapply delay (main.js lines 39-41 and 549-555) -/

/-- main.js lines 39-41:
`function randInt(min, max) { return Math.floor(Math.random() * (max - min + 1)) + min; }`.
The `Math.random()` draw `r ∈ [0, 1)` is passed explicitly and the
floating-point arithmetic is modelled exactly over `ℚ`. -/
def randInt (min max : Int) (r : ℚ) : Int :=
  ⌊r * ((max : ℚ) - (min : ℚ) + 1)⌋ + min

/-- JavaScript `v || d` for an optional numeric config field: `d` when the
field is absent or `0` (both falsy), otherwise the field's value. -/
def orDefault (v : Option Int) (d : Int) : Int :=
  match v with
  | none => d
  | some x => if x = 0 then d else x

/-- main.js line 551 in `runOnce`:
`const days = randInt(jobCfg.minReapplyDays || 30, jobCfg.maxReapplyDays || 90);`. -/
def reapplyDays (minReapplyDays maxReapplyDays : Option Int) (r : ℚ) : Int :=
  randInt (orDefault minReapplyDays 30) (orDefault maxReapplyDays 90) r

/-- Result of `polishCV` together with which collaborators were invoked. -/
structure PolishResult where
  result : String
  reviewInvoked : Bool
  applierInvoked : Bool
deriving DecidableEq, Repr

/-- main.js lines 396-412 `polishCV`: given the Suggestion Engine's output
`suggestions` and the operator's input `lines`, return the original document
when there are no suggestions; otherwise run the review loop and return the
original document when the approved set is empty, else the Edit Applier's
output.  `applyEdits` abstracts the `applyCVEdits` model call (line 410);
the flags record whether the review loop / Edit Applier were invoked. -/
def polishCV (applyEdits : String → List Suggestion → String)
    (cvMarkdown : String) (suggestions : List Suggestion) (lines : List String) :
    Option PolishResult :=
  if suggestions.isEmpty then some ⟨cvMarkdown, false, false⟩
  else
    match reviewSuggestionsInteractively suggestions lines with
    | none => none
    | some approved =>
      if approved.isEmpty then some ⟨cvMarkdown, true, false⟩
      else some ⟨applyEdits cvMarkdown approved, true, true⟩

/-! ### The Model Gateway (main.js lines 60-98 `sendToLLM`)

The gateway hands the schema to the service (`text.format`, `strict: true`)
and parses the response text with `JSON.parse`.  The response text is an
argument here; `JSON.parse` is modelled by a fuel-bounded recursive-descent
parser for the JSON fragment the pipeline's payloads use (integer numeric
literals, string escapes `\" \\ / \n \t \r`). -/

/-- A JSON value (numeric literals restricted to integers). -/
inductive Json where
  | null
  | bool (b : Bool)
  | num (n : Int)
  | str (s : String)
  | arr (elems : List Json)
  | obj (fields : List (String × Json))

/-- JSON syntax whitespace (RFC 8259: space, tab, line feed, carriage
return). -/
def jsonWs (c : Char) : Bool :=
  c == ' ' || c == '\t' || c == '\n' || c == '\r'

/-- Parse the body of a JSON string literal, after the opening quote. -/
def parseStringBody : Nat → List Char → Option (String × List Char)
  | 0, _ => none
  | _, [] => none
  | fuel + 1, c :: rest =>
    if c = '"' then some ("", rest)
    else if c = '\\' then
      match rest with
      | [] => none
      | e :: rest2 =>
        let dec : Option Char :=
          if e = '"' then some '"'
          else if e = '\\' then some '\\'
          else if e = '/' then some '/'
          else if e = 'n' then some '\n'
          else if e = 't' then some '\t'
          else if e = 'r' then some '\r'
          else none
        match dec with
        | some d => (parseStringBody fuel rest2).map fun p => (⟨d :: p.1.data⟩, p.2)
        | none => none
    else (parseStringBody fuel rest).map fun p => (⟨c :: p.1.data⟩, p.2)

mutual

/-- One JSON value and the remaining input. -/
def parseJsonValue : Nat → List Char → Option (Json × List Char)
  | 0, _ => none
  | fuel + 1, cs =>
    match cs.dropWhile jsonWs with
    | [] => none
    | c :: rest =>
      if c = 'n' then
        match rest with
        | 'u' :: 'l' :: 'l' :: r => some (.null, r)
        | _ => none
      else if c = 't' then
        match rest with
        | 'r' :: 'u' :: 'e' :: r => some (.bool true, r)
        | _ => none
      else if c = 'f' then
        match rest with
        | 'a' :: 'l' :: 's' :: 'e' :: r => some (.bool false, r)
        | _ => none
      else if c = '"' then
        (parseStringBody fuel rest).map fun p => (.str p.1, p.2)
      else if c = '[' then
        match rest.dropWhile jsonWs with
        | ']' :: r => some (.arr [], r)
        | _ => (parseArrayItems fuel rest).map fun p => (.arr p.1, p.2)
      else if c = '{' then
        match rest.dropWhile jsonWs with
        | '}' :: r => some (.obj [], r)
        | _ => (parseObjMembers fuel rest).map fun p => (.obj p.1, p.2)
      else if c = '-' then
        match rest.takeWhile Char.isDigit with
        | [] => none
        | ds => some (.num (-(digitsVal ds : Int)), rest.drop ds.length)
      else if c.isDigit then
        some (.num (digitsVal ((c :: rest).takeWhile Char.isDigit)),
          (c :: rest).drop ((c :: rest).takeWhile Char.isDigit).length)
      else none

/-- Comma-separated values up to the closing bracket. -/
def parseArrayItems : Nat → List Char → Option (List Json × List Char)
  | 0, _ => none
  | fuel + 1, cs =>
    match parseJsonValue fuel cs with
    | none => none
    | some (v, r) =>
      match r.dropWhile jsonWs with
      | ',' :: r2 => (parseArrayItems fuel r2).map fun p => (v :: p.1, p.2)
      | ']' :: r2 => some ([v], r2)
      | _ => none

/-- Comma-separated `"key": value` members up to the closing brace. -/
def parseObjMembers : Nat → List Char → Option (List (String × Json) × List Char)
  | 0, _ => none
  | fuel + 1, cs =>
    match cs.dropWhile jsonWs with
    | '"' :: rest =>
      match parseStringBody fuel rest with
      | none => none
      | some (k, r) =>
        match r.dropWhile jsonWs with
        | ':' :: r2 =>
          match parseJsonValue fuel r2 with
          | none => none
          | some (v, r3) =>
            match r3.dropWhile jsonWs with
            | ',' :: r4 => (parseObjMembers fuel r4).map fun p => ((k, v) :: p.1, p.2)
            | '}' :: r4 => some ([(k, v)], r4)
            | _ => none
        | _ => none
    | _ => none

end

/-- JavaScript `JSON.parse` on the modelled fragment: parse one value and
require only whitespace to remain; `none` is a thrown `SyntaxError`. -/
def jsonParse (s : String) : Option Json :=
  match parseJsonValue (2 * s.data.length + 2) s.data with
  | some (v, rest) => if (rest.dropWhile jsonWs).isEmpty then some v else none
  | none => none

/-- The strict JSON schemas `sendToLLM` is called with, one per call site in
main.js (lines 110-131, 143-151, 173-181/205-213, 232-239, 254-273,
436-443). -/
inductive GatewaySchema where
  | jobDescription
  | openStatus
  | scoreRationale
  | cvMarkdown
  | suggestions
  | coveringLetter
deriving DecidableEq, Repr

/-- A strict object shape: every present key is a declared key
(`additionalProperties: false`), every required key is present, and every
field's value satisfies its key's check. -/
def objShape (fields : List (String × Json)) (keys required : List String)
    (check : String → Json → Bool) : Bool :=
  fields.all (fun f => keys.contains f.1) &&
  required.all (fun r => fields.any (fun f => f.1 == r)) &&
  fields.all (fun f => check f.1 f.2)

/-- `{ type: 'string' }`. -/
def isStr : Json → Bool
  | .str _ => true
  | _ => false

/-- `{ type: 'boolean' }`. -/
def isBool : Json → Bool
  | .bool _ => true
  | _ => false

/-- A numeric value within `[lo, hi]` (`minimum` / `maximum`). -/
def isNumRange (lo hi : Int) : Json → Bool
  | .num n => decide (lo ≤ n) && decide (n ≤ hi)
  | _ => false

/-- main.js lines 118-127: one entry of `sources`. -/
def isSourceItem : Json → Bool
  | .obj fs =>
    objShape fs ["title", "url", "publisher"] ["url", "title", "publisher"]
      (fun _ v => isStr v)
  | _ => false

/-- main.js lines 110-131: the job-description-with-sources schema. -/
def isJobDescriptionPayload : Json → Bool
  | .obj fs =>
    objShape fs ["role_title", "job_description", "sources"]
      ["role_title", "job_description", "sources"]
      (fun k v =>
        if k == "sources" then
          match v with
          | .arr es => es.all isSourceItem
          | _ => false
        else isStr v)
  | _ => false

/-- main.js lines 143-151: the open/confidence schema (on the integer
fragment of JSON numerals). -/
def isOpenStatusPayload : Json → Bool
  | .obj fs =>
    objShape fs ["open", "confidence"] ["open", "confidence"]
      (fun k v => if k == "confidence" then isNumRange 0 1 v else isBool v)
  | _ => false

/-- main.js lines 173-181 and 205-213: the score/rationale schema. -/
def isScoreRationalePayload : Json → Bool
  | .obj fs =>
    objShape fs ["score", "rationale"] ["score", "rationale"]
      (fun k v => if k == "score" then isNumRange 1 10 v else isStr v)
  | _ => false

/-- main.js lines 232-239 and 295-302: the cv_markdown schema. -/
def isCvMarkdownPayload : Json → Bool
  | .obj fs => objShape fs ["cv_markdown"] ["cv_markdown"] (fun _ v => isStr v)
  | _ => false

/-- main.js lines 262-269: one suggestion entry. -/
def isSuggestionItem : Json → Bool
  | .obj fs =>
    objShape fs ["type", "location", "suggestion"] ["type", "location", "suggestion"]
      (fun k v =>
        if k == "type" then
          match v with
          | .str s =>
            ["clarity", "typo", "formatting", "impact", "consistency", "tone",
              "other"].contains s
          | _ => false
        else isStr v)
  | _ => false

/-- main.js lines 254-273: the suggestions-array schema. -/
def isSuggestionsPayload : Json → Bool
  | .obj fs =>
    objShape fs ["suggestions"] ["suggestions"]
      (fun _ v =>
        match v with
        | .arr es => es.all isSuggestionItem
        | _ => false)
  | _ => false

/-- main.js lines 436-443: the covering_letter schema. -/
def isCoveringLetterPayload : Json → Bool
  | .obj fs =>
    objShape fs ["covering_letter"] ["covering_letter"] (fun _ v => isStr v)
  | _ => false

/-- Validation of a payload against one of the gateway's schemas. -/
def validate : GatewaySchema → Json → Bool
  | .jobDescription, j => isJobDescriptionPayload j
  | .openStatus, j => isOpenStatusPayload j
  | .scoreRationale, j => isScoreRationalePayload j
  | .cvMarkdown, j => isCvMarkdownPayload j
  | .suggestions, j => isSuggestionsPayload j
  | .coveringLetter, j => isCoveringLetterPayload j

/-- What `sendToLLM` yields: raw text without a schema, a parsed JSON
payload with one. -/
inductive GatewayResult where
  | text (s : String)
  | json (v : Json)

/-- main.js lines 60-98 `sendToLLM`, the part downstream of the service
call: `return schema ? JSON.parse(res.output_text) : res.output_text;`.
With a schema the code runs `JSON.parse` on the response text — a parse
failure throws (`Except.error`), and no client-side validation against the
schema is performed; without a schema the raw text is returned. -/
def sendToLLM (schema : Option GatewaySchema) (output_text : String) :
    Except String GatewayResult :=
  match schema with
  | none => .ok (.text output_text)
  | some _ =>
    match jsonParse output_text with
    | some v => .ok (.json v)
    | none => .error "SyntaxError: unexpected token in JSON"

/-! ### Theorems about the scoring / trimming phase of `draftCV` -/

/-- The sort relation used for skills and achievements is transitive. -/
theorem byScoreDesc_trans : ∀ a b c, byScoreDesc a b → byScoreDesc b c → byScoreDesc a c := by
  intro a b c hab hbc
  simp only [byScoreDesc, decide_eq_true_eq] at *
  omega

/-- The sort relation used for skills and achievements is total. -/
theorem byScoreDesc_total : ∀ a b, byScoreDesc a b || byScoreDesc b a := by
  intro a b
  simp only [byScoreDesc, Bool.or_eq_true, decide_eq_true_eq]
  omega

/-- C3: for every list of skills (or achievements) with their relevance
scores, `draftCV` selects at most 10 items, in score-descending order, and
the selection is stable: for each score value, the selected items with that
score appear in their original input order (they form a sublist of the
equally-scored input items). -/
theorem selectTopItems_top10_sorted_stable (xs : List ScoredItem) :
    (selectTopItems xs).length ≤ 10 ∧
    (selectTopItems xs).Pairwise (fun a b => b.score ≤ a.score) ∧
    ∀ s : Int, ((selectTopItems xs).filter (fun a => a.score == s)).Sublist
        (xs.filter (fun a => a.score == s)) := by
  refine ⟨?_, ?_, ?_⟩
  · exact (xs.mergeSort byScoreDesc).length_take_le 10
  · have hs := List.sorted_mergeSort byScoreDesc_trans byScoreDesc_total xs
    have hs' := hs.sublist (List.take_sublist 10 (xs.mergeSort byScoreDesc))
    exact hs'.imp fun h => by simpa [byScoreDesc] using h
  · intro s
    set p : ScoredItem → Bool := fun a => a.score == s with hp
    have hsub0 : (xs.filter p).Sublist xs := List.filter_sublist xs
    have hpw : (xs.filter p).Pairwise (byScoreDesc · ·) := by
      apply List.pairwise_of_forall_mem_list
      intro a ha b hb
      have ha' : a.score = s := by simpa [hp] using (List.mem_filter.mp ha).2
      have hb' : b.score = s := by simpa [hp] using (List.mem_filter.mp hb).2
      simp [byScoreDesc, ha', hb']
    have h1 : (xs.filter p).Sublist (xs.mergeSort byScoreDesc) :=
      List.sublist_mergeSort byScoreDesc_trans byScoreDesc_total hpw hsub0
    have h2' : (xs.filter p).Sublist ((xs.mergeSort byScoreDesc).filter p) := by
      simpa [List.filter_filter] using h1.filter p
    have hperm : ((xs.mergeSort byScoreDesc).filter p).Perm (xs.filter p) :=
      (List.mergeSort_perm xs byScoreDesc).filter p
    have heq : xs.filter p = (xs.mergeSort byScoreDesc).filter p :=
      h2'.eq_of_length (by simpa using hperm.length_eq.symm)
    have h3 : ((selectTopItems xs).filter p).Sublist ((xs.mergeSort byScoreDesc).filter p) :=
      (List.take_sublist 10 (xs.mergeSort byScoreDesc)).filter p
    rw [← heq] at h3
    exact h3

/-- C1 (counterexample): contrary to the claim, the "omit description for
low relevance" branch of `draftCV` does trigger.  A past role scored 10 (the
maximum of the 1–10 scale) still satisfies `score < 80`, so its description
is removed from the CV passed to the Document Composer rather than retained. -/
theorem includeRole_counterexample :
    draftCVPastJobRoles [(⟨"Lead Developer", "2019-03", "2023-06", some "Led the team"⟩, 10)] =
      [⟨"Lead Developer", "2019-03", "2023-06", none⟩] ∧
    ¬ (includeRole ⟨"Lead Developer", "2019-03", "2023-06", some "Led the team"⟩ 10).description
        = some "Led the team" := by
  constructor
  · simp [draftCVPastJobRoles, includeRole]
  · decide

/-- C1 (amended): the past-role relevance threshold (80) is compared against
scores from the 1–10 scale, so the "omit description" branch ALWAYS
triggers: every past role whose score is an integer in [1,10] has its
description field absent from the CV passed to the Document Composer. -/
theorem draftCV_always_omits_description (scoredRoles : List (PastRole × Int))
    (h : ∀ p ∈ scoredRoles, 1 ≤ p.2 ∧ p.2 ≤ 10) :
    ∀ q ∈ draftCVPastJobRoles scoredRoles, q.description = none := by
  intro q hq
  have hq' : q ∈ scoredRoles.map fun p => includeRole p.1 p.2 := by
    simpa [draftCVPastJobRoles] using hq
  obtain ⟨p, hp, rfl⟩ := List.mem_map.mp hq'
  have hscore := (h p hp).2
  simp only [includeRole, if_pos (by omega : p.2 < 80)]

/-- Witness for the amended C1 at a concrete input: a single role with
score 7 comes out of `draftCV`'s role phase with no description. -/
theorem draftCV_always_omits_description_witness :
    (draftCVPastJobRoles
        [(⟨"Developer", "2020-01", "2021-01", some "Shipped the product"⟩, 7)]).all
      (fun q => q.description.isNone) = true := by
  rw [List.all_eq_true]
  intro q hq
  have h := draftCV_always_omits_description
    [(⟨"Developer", "2020-01", "2021-01", some "Shipped the product"⟩, 7)] (by decide) q hq
  simp [h]

/-- C2: for every past role with a score in [1,10]: if the score is below
the threshold (80) the description is absent from the processed role; if it
is not below the threshold the role (including its description) is kept
verbatim; the other fields are preserved in either case; and the CV's
`pastJobRoles` handed to the Document Composer is exactly a permutation
(the start-date reordering) of the processed roles. -/
theorem draftCV_role_description_redaction (role : PastRole) (score : Int)
    (h1 : 1 ≤ score) (h2 : score ≤ 10) :
    (score < 80 → (includeRole role score).description = none) ∧
    (¬ score < 80 → includeRole role score = role) ∧
    (includeRole role score).jobTitle = role.jobTitle ∧
    (includeRole role score).fromDate = role.fromDate ∧
    (includeRole role score).toDate = role.toDate ∧
    ∀ scoredRoles : List (PastRole × Int),
      (draftCVPastJobRoles scoredRoles).Perm (scoredRoles.map fun p => includeRole p.1 p.2) := by
  refine ⟨fun hlt => ?_, fun hge => ?_, ?_, ?_, ?_, fun scoredRoles => ?_⟩
  · simp [includeRole, if_pos hlt]
  · simp [includeRole, if_neg hge]
  · simp only [includeRole]; split <;> rfl
  · simp only [includeRole]; split <;> rfl
  · simp only [includeRole]; split <;> rfl
  · exact List.mergeSort_perm _ byStartDateDesc

/-- Witness for C2 at a concrete input: a role scored 5 (below 80) loses
its description. -/
theorem draftCV_role_description_redaction_witness :
    (includeRole ⟨"Engineer", "2018-05", "2019-05", some "Built the pipeline"⟩ 5).description
      = none :=
  (draftCV_role_description_redaction
      ⟨"Engineer", "2018-05", "2019-05", some "Built the pipeline"⟩ 5
      (by decide) (by decide)).1 (by decide)

/-! ### Theorems about the review loop and `polishCV` -/

/-- Transcript composition: a run of non-terminating commands taking the
live list from `l` to `l'` can be peeled off the front of any review
session. -/
theorem runCmds_append :
    ∀ (n : Nat) (cmds : List String), cmds.length ≤ n →
      ∀ (l l' : List Suggestion) (more : List String),
        runCmds l cmds = some l' →
        reviewLoop l (cmds ++ more) = reviewLoop l' more := by
  intro n
  induction n with
  | zero =>
    intro cmds hlen l l' more h
    have hnil : cmds = [] := List.eq_nil_of_length_eq_zero (by omega)
    subst hnil
    simp only [runCmds, Option.some.injEq] at h
    subst h
    rfl
  | succ n ihn =>
    intro cmds hlen l l' more h
    match cmds with
    | [] =>
      simp only [runCmds, Option.some.injEq] at h
      subst h
      rfl
    | raw :: rest =>
      have hrest : rest.length ≤ n := by
        simp only [List.length_cons] at hlen; omega
      rw [List.cons_append]
      by_cases htrim : jsTrim raw = ""
      · rw [show runCmds l (raw :: rest) = runCmds l rest by
          simp only [runCmds, if_pos htrim]] at h
        rw [show reviewLoop l (raw :: (rest ++ more)) = reviewLoop l (rest ++ more) by
          simp only [reviewLoop, if_pos htrim]]
        exact ihn rest hrest l l' more h
      · cases hstep : stepLine l (jsTrim raw) with
        | halt res =>
          rw [show runCmds l (raw :: rest) = none by
            simp only [runCmds, if_neg htrim, hstep]] at h
          exact absurd h (by simp)
        | cont l2 =>
          rw [show runCmds l (raw :: rest) = runCmds l2 rest by
            simp only [runCmds, if_neg htrim, hstep]] at h
          rw [show reviewLoop l (raw :: (rest ++ more)) = reviewLoop l2 (rest ++ more) by
            simp only [reviewLoop, if_neg htrim, hstep]]
          exact ihn rest hrest l2 l' more h
        | contEdit idx =>
          match rest with
          | [] =>
            rw [show runCmds l [raw] = none by
              simp only [runCmds, if_neg htrim, hstep]] at h
            exact absurd h (by simp)
          | reply :: rest2 =>
            have hrest2 : rest2.length ≤ n := by
              simp only [List.length_cons] at hlen; omega
            rw [show runCmds l (raw :: reply :: rest2) =
                runCmds (applyEdit l idx reply) rest2 by
              simp only [runCmds, if_neg htrim, hstep]] at h
            rw [show reviewLoop l (raw :: (reply :: rest2 ++ more)) =
                reviewLoop (applyEdit l idx reply) (rest2 ++ more) by
              simp only [reviewLoop, if_neg htrim, hstep, List.cons_append]]
            exact ihn rest2 hrest2 (applyEdit l idx reply) l' more h

/-- C4: for every initial suggestion list and every sequence of delete and
edit commands issued during a review session (any non-terminating
transcript, `runCmds l cmds = some l'`), issuing the command `q` makes
`reviewSuggestionsInteractively` return the empty approved set, regardless
of the prior edits and deletions. -/
theorem quit_returns_empty_approved_set (l l' : List Suggestion) (cmds rest : List String)
    (h : runCmds l cmds = some l') :
    reviewSuggestionsInteractively l (cmds ++ "q" :: rest) = some [] := by
  unfold reviewSuggestionsInteractively
  rw [runCmds_append cmds.length cmds le_rfl l l' ("q" :: rest) h]
  rfl

/-- Witness for C4: a concrete session (one deletion, one edit with its
reply, one unknown command) followed by `q` returns the empty set. -/
theorem quit_returns_empty_approved_set_witness :
    reviewSuggestionsInteractively
        [⟨"typo", "Summary", "Fix the spelling"⟩, ⟨"tone", "Profile", "Soften the wording"⟩]
        (["d 2", "e 1", "Corrected the spelling", "zz"] ++ "q" :: []) = some [] :=
  quit_returns_empty_approved_set
    [⟨"typo", "Summary", "Fix the spelling"⟩, ⟨"tone", "Profile", "Soften the wording"⟩]
    [⟨"typo", "Summary", "Corrected the spelling"⟩]
    ["d 2", "e 1", "Corrected the spelling", "zz"] [] (by decide)

/-- C7: when the Suggestion Engine returns an empty list, `polishCV`
short-circuits both the review loop and the Edit Applier (neither is
invoked) and returns the original CV Markdown unchanged. -/
theorem polishCV_empty_suggestions (applyEdits : String → List Suggestion → String)
    (cvMarkdown : String) (lines : List String) :
    polishCV applyEdits cvMarkdown [] lines =
      some ⟨cvMarkdown, false, false⟩ := rfl

/-- C5: deleting all suggestions (`d a`, or any transcript that empties the
list, e.g. deleting every index) and then issuing `c` yields the same
outcome as issuing `q`: the review loop returns the empty approved set in
both cases, and `polishCV` returns the original document without invoking
the Edit Applier. -/
theorem delete_all_then_continue_equals_quit (applyEdits : String → List Suggestion → String)
    (cvMarkdown : String) (suggestions : List Suggestion) :
    reviewSuggestionsInteractively suggestions ["d a", "c"] = some [] ∧
    reviewSuggestionsInteractively suggestions ["q"] = some [] ∧
    polishCV applyEdits cvMarkdown suggestions ["d a", "c"] =
      polishCV applyEdits cvMarkdown suggestions ["q"] ∧
    ∀ lines, reviewSuggestionsInteractively suggestions lines = some [] →
      polishCV applyEdits cvMarkdown suggestions lines =
        some ⟨cvMarkdown, !suggestions.isEmpty, false⟩ := by
  have hda : reviewSuggestionsInteractively suggestions ["d a", "c"] = some [] := rfl
  have hq : reviewSuggestionsInteractively suggestions ["q"] = some [] := rfl
  refine ⟨hda, hq, ?_, ?_⟩
  · by_cases he : suggestions.isEmpty
    · simp [polishCV, he]
    · simp [polishCV, he, hda, hq]
  · intro lines hl
    by_cases he : suggestions.isEmpty
    · simp [polishCV, he]
    · simp [polishCV, he, hl]

/-- Witness for C5: deleting the only suggestion by index and continuing
returns the original document with the Edit Applier not invoked. -/
theorem delete_all_then_continue_equals_quit_witness :
    polishCV (fun cv _ => cv ++ " (edited)") "CV BODY"
        [⟨"typo", "Header", "Fix the typo"⟩] ["d 1", "c"] =
      some ⟨"CV BODY", true, false⟩ :=
  (delete_all_then_continue_equals_quit (fun cv _ => cv ++ " (edited)") "CV BODY"
      [⟨"typo", "Header", "Fix the typo"⟩]).2.2.2 ["d 1", "c"] (by decide)

/-- Membership in the index range contributed by a `x-y` part: exactly the
0-based `j` with `min x y ≤ j + 1 ≤ max x y` and `j + 1 ≤ mx`. -/
theorem mem_rangeIdxs {x y : Int} {mx j : Nat} :
    j ∈ rangeIdxs x y mx ↔
      min x y ≤ (j : Int) + 1 ∧ (j : Int) + 1 ≤ max x y ∧ j < mx := by
  unfold rangeIdxs
  generalize hA : min x y = A
  generalize hB : max x y = B
  have hC1 : A ≤ max A 1 := le_max_left _ _
  have hC2 : (1 : Int) ≤ max A 1 := le_max_right _ _
  have hC3 : max A 1 = A ∨ max A 1 = 1 := max_choice _ _
  have hD1 : min B (mx : Int) ≤ B := min_le_left _ _
  have hD2 : min B (mx : Int) ≤ (mx : Int) := min_le_right _ _
  have hD3 : min B (mx : Int) = B ∨ min B (mx : Int) = (mx : Int) := min_choice _ _
  generalize hC : max A 1 = C at *
  generalize hD : min B (mx : Int) = D at *
  split
  · next hle =>
    simp only [List.mem_map, List.mem_range]
    constructor
    · rintro ⟨k, hk, rfl⟩
      omega
    · intro hcond
      exact ⟨((j : Int) + 1 - C).toNat, by omega, by omega⟩
  · next hle =>
    simp only [List.not_mem_nil, false_iff]
    omega

/-- The indices a part denotes are independent of the bound except for the
cut-off at `mx`: enlarging the bound to `M` and keeping only indices below
`mx` yields the same membership. -/
theorem mem_parseIndexPart_iff {mx M j : Nat} (part : String) (hmx : mx ≤ M) :
    j ∈ parseIndexPart mx part ↔ j ∈ parseIndexPart M part ∧ j < mx := by
  unfold parseIndexPart
  by_cases hp : part = ""
  · simp [hp]
  · simp only [if_neg hp]
    by_cases hd : part.data.contains '-'
    · simp only [if_pos hd]
      rcases hsp : jsSplit part (fun c => c = '-') with _ | ⟨a, _ | ⟨b, tl⟩⟩
      · simp
      · simp
      · rcases hx : jsParseInt a with _ | x
        · rcases hy : jsParseInt b with _ | y <;> simp [hx, hy]
        · rcases hy : jsParseInt b with _ | y
          · simp [hx, hy]
          · simp only [hx, hy, mem_rangeIdxs]
            omega
    · simp only [if_neg hd]
      rcases hn : jsParseInt part with _ | n
      · simp
      · by_cases h1 : 1 ≤ n ∧ n ≤ (mx : Int) <;> by_cases h2 : 1 ≤ n ∧ n ≤ (M : Int) <;>
          simp [h1, h2] <;> omega

/-- Membership in `parseIndexList`: some comma-separated part contributes
the index. -/
theorem mem_parseIndexList {s : String} {mx j : Nat} :
    j ∈ parseIndexList s mx ↔
      ∃ part ∈ jsSplit s (fun c => c = ','), j ∈ parseIndexPart mx part := by
  unfold parseIndexList
  rw [(List.perm_insertionSort _ _).mem_iff, List.mem_dedup, List.mem_flatMap]

/-- `parseIndexList` returns its indices sorted ascending. -/
theorem parseIndexList_sorted (s : String) (mx : Nat) :
    (parseIndexList s mx).Sorted (· ≤ ·) :=
  List.sorted_insertionSort _ _

/-- `parseIndexList` returns no duplicate indices (the JS `Set`). -/
theorem parseIndexList_nodup (s : String) (mx : Nat) : (parseIndexList s mx).Nodup :=
  ((List.perm_insertionSort _ _).nodup_iff).mpr (List.nodup_dedup _)

/-- C6: in the review loop, a `d` command whose argument parses to an empty
index list leaves the suggestion list unchanged; every index
`parseIndexList` returns is within `[0, length)` of the live list; indices
outside `[1, length]` are exactly the ones dropped relative to a larger
bound, so in-bounds indices in the same command are still honoured; and a
`d` command with a non-empty parse removes exactly the parsed indices. -/
theorem d_command_ignores_out_of_bounds (l : List Suggestion) (line arg : String)
    (lines : List String) (hne : jsTrim line ≠ "")
    (hsplit : splitCmd (jsTrim line) = ("d", arg)) (hna : arg ≠ "a") :
    (parseIndexList arg l.length = [] →
      reviewLoop l (line :: lines) = reviewLoop l lines) ∧
    (∀ j ∈ parseIndexList arg l.length, j < l.length) ∧
    (∀ M, l.length ≤ M →
      parseIndexList arg l.length =
        (parseIndexList arg M).filter (fun j => decide (j < l.length))) ∧
    (parseIndexList arg l.length ≠ [] →
      reviewLoop l (line :: lines) =
        reviewLoop (removeIdxs l (parseIndexList arg l.length)) lines) := by
  have hbound : ∀ j ∈ parseIndexList arg l.length, j < l.length := by
    intro j hj
    obtain ⟨part, -, hp⟩ := mem_parseIndexList.mp hj
    exact ((mem_parseIndexPart_iff part le_rfl).mp hp).2
  refine ⟨?_, hbound, ?_, ?_⟩
  · intro hemp
    have hstep : stepLine l (jsTrim line) = .cont l := by
      unfold stepLine
      rw [hsplit]
      rw [if_neg (by decide : ¬ ("d" : String) = "q"),
          if_neg (by decide : ¬ ("d" : String) = "c"), if_pos rfl, if_neg hna]
      simp [hemp]
    simp only [reviewLoop, if_neg hne, hstep]
  · intro M hM
    have hmemext : ∀ a, a ∈ parseIndexList arg l.length ↔
        a ∈ (parseIndexList arg M).filter (fun j => decide (j < l.length)) := by
      intro a
      rw [List.mem_filter, mem_parseIndexList, mem_parseIndexList]
      constructor
      · rintro ⟨part, hpart, hp⟩
        have := (mem_parseIndexPart_iff part hM).mp hp
        exact ⟨⟨part, hpart, this.1⟩, by simpa using this.2⟩
      · rintro ⟨⟨part, hpart, hp⟩, hlt⟩
        exact ⟨part, hpart, (mem_parseIndexPart_iff part hM).mpr ⟨hp, by simpa using hlt⟩⟩
    have hperm := (List.perm_ext_iff_of_nodup (parseIndexList_nodup arg l.length)
        ((parseIndexList_nodup arg M).filter _)).mpr hmemext
    exact List.eq_of_perm_of_sorted hperm (parseIndexList_sorted arg l.length)
      ((parseIndexList_sorted arg M).filter _)
  · intro hemp
    have hstep : stepLine l (jsTrim line) =
        .cont (removeIdxs l (parseIndexList arg l.length)) := by
      unfold stepLine
      rw [hsplit]
      rw [if_neg (by decide : ¬ ("d" : String) = "q"),
          if_neg (by decide : ¬ ("d" : String) = "c"), if_pos rfl, if_neg hna]
      simp [List.isEmpty_iff, hemp]
    simp only [reviewLoop, if_neg hne, hstep]

/-- Witness for C6: with a 2-element list, `d 0,2,9` parses to the single
in-bounds index 1 (0 and 9 ignored), matching the filter of the parse under
the larger bound 5. -/
theorem d_command_ignores_out_of_bounds_witness :
    parseIndexList "0,2,9" 2 =
      (parseIndexList "0,2,9" 5).filter (fun j => decide (j < 2)) :=
  (d_command_ignores_out_of_bounds
      [⟨"typo", "Header", "Fix the typo"⟩, ⟨"tone", "Profile", "Soften it"⟩]
      "d 0,2,9" "0,2,9" [] (by decide) (by decide) (by decide)).2.2.1 5 (by decide)

/-- C8: the `e <n>` command replaces only the suggestion-text of the
selected element: for every in-range index the element keeps its `type` and
`location` (only `suggestion` is replaced), every other element and the
length are unchanged, and an empty (blank-after-trim) reply keeps the
existing text; for every non-integer or out-of-range index the loop
continues with the list unchanged. -/
theorem e_command_edits_only_suggestion_text (l : List Suggestion) (line arg : String)
    (hne : jsTrim line ≠ "") (hsplit : splitCmd (jsTrim line) = ("e", arg)) :
    (∀ lines, jsParseInt arg = none →
      reviewLoop l (line :: lines) = reviewLoop l lines) ∧
    (∀ lines (n : Int), jsParseInt arg = some n → n < 1 ∨ (l.length : Int) < n →
      reviewLoop l (line :: lines) = reviewLoop l lines) ∧
    (∀ reply lines (n : Int), jsParseInt arg = some n → 1 ≤ n → n ≤ (l.length : Int) →
      reviewLoop l (line :: reply :: lines) =
        reviewLoop (applyEdit l (n - 1).toNat reply) lines) ∧
    (∀ idx reply, idx < l.length →
      (applyEdit l idx reply).length = l.length ∧
      (∀ j, j ≠ idx → (applyEdit l idx reply)[j]? = l[j]?) ∧
      (∀ item, l[idx]? = some item →
        (applyEdit l idx reply)[idx]? =
          some { item with
                 suggestion := if jsTrim reply = "" then item.suggestion
                               else jsTrim reply } ∧
        (jsTrim reply = "" → (applyEdit l idx reply)[idx]? = some item))) := by
  refine ⟨?_, ?_, ?_, ?_⟩
  · intro lines hparse
    have hstep : stepLine l (jsTrim line) = .cont l := by
      simp [stepLine, hsplit, hparse]
    simp only [reviewLoop, if_neg hne, hstep]
  · intro lines n hparse hout
    have hstep : stepLine l (jsTrim line) = .cont l := by
      simp only [stepLine, hsplit]
      simp [hparse, if_pos hout]
    simp only [reviewLoop, if_neg hne, hstep]
  · intro reply lines n hparse h1 h2
    have hrange : ¬ (n < 1 ∨ (l.length : Int) < n) := by omega
    have hstep : stepLine l (jsTrim line) = .contEdit (n - 1).toNat := by
      simp only [stepLine, hsplit]
      simp [hparse, if_neg hrange]
    simp only [reviewLoop, if_neg hne, hstep]
  · intro idx reply hidx
    obtain ⟨item0, hitem0⟩ : ∃ a, l[idx]? = some a :=
      ⟨l[idx], List.getElem?_eq_getElem hidx⟩
    refine ⟨?_, ?_, ?_⟩
    · simp [applyEdit, hitem0]
    · intro j hj
      simp only [applyEdit, hitem0]
      exact List.getElem?_set_ne (fun h => hj h.symm)
    · intro item hitem
      have hit : item0 = item := by
        rw [hitem0] at hitem
        injection hitem with h
      subst hit
      by_cases hrep : jsTrim reply = ""
      · constructor
        · simp only [applyEdit, hitem0, if_pos hrep]
          rw [List.getElem?_set_self hidx]
          try simp [hrep]
        · intro _
          simp only [applyEdit, hitem0, if_pos hrep]
          rw [List.getElem?_set_self hidx]
      · constructor
        · simp only [applyEdit, hitem0, if_neg hrep]
          rw [List.getElem?_set_self (by simpa using hidx)]
          try simp [hrep]
        · intro hcontra
          exact absurd hcontra hrep

/-- Witness for C8: editing element 2 of a 2-element list with a
non-blank reply rewrites only that element's suggestion text. -/
theorem e_command_edits_only_suggestion_text_witness :
    reviewLoop [⟨"typo", "Header", "Fix the typo"⟩, ⟨"tone", "Profile", "Soften it"⟩]
        ("e 2" :: " Tightened wording " :: ["c"]) =
      reviewLoop
        (applyEdit [⟨"typo", "Header", "Fix the typo"⟩, ⟨"tone", "Profile", "Soften it"⟩]
          1 " Tightened wording ") ["c"] :=
  (e_command_edits_only_suggestion_text
      [⟨"typo", "Header", "Fix the typo"⟩, ⟨"tone", "Profile", "Soften it"⟩]
      "e 2" "2" (by decide) (by decide)).2.2.1 " Tightened wording " ["c"] 2
      (by decide) (by decide) (by decide)

/-- C9: for every pair of integers `min ≤ max` and every random draw
`r ∈ [0, 1)`, `randInt min max r` is an integer in the closed range
`[min, max]`; and the orchestrator's reapply delay in days is drawn by
`randInt` from the configured inclusive range, with 30 and 90 substituted
when a bound is absent or zero. -/
theorem randInt_in_range (min max : Int) (r : ℚ) (hmm : min ≤ max)
    (h0 : 0 ≤ r) (h1 : r < 1) :
    min ≤ randInt min max r ∧ randInt min max r ≤ max ∧
    (∀ cmin cmax : Option Int,
      reapplyDays cmin cmax r = randInt (orDefault cmin 30) (orDefault cmax 90) r) ∧
    (∀ d : Int, orDefault none d = d ∧ orDefault (some 0) d = d) ∧
    (∀ v d : Int, v ≠ 0 → orDefault (some v) d = v) := by
  have hmm' : (min : ℚ) ≤ (max : ℚ) := by exact_mod_cast hmm
  have hkpos : (0 : ℚ) < (max : ℚ) - (min : ℚ) + 1 := by linarith
  have hlow : 0 ≤ ⌊r * ((max : ℚ) - (min : ℚ) + 1)⌋ :=
    Int.floor_nonneg.mpr (mul_nonneg h0 (le_of_lt hkpos))
  have hmul : r * ((max : ℚ) - (min : ℚ) + 1) < (max : ℚ) - (min : ℚ) + 1 := by
    calc r * ((max : ℚ) - (min : ℚ) + 1)
        < 1 * ((max : ℚ) - (min : ℚ) + 1) := mul_lt_mul_of_pos_right h1 hkpos
      _ = (max : ℚ) - (min : ℚ) + 1 := one_mul _
  have hup : ⌊r * ((max : ℚ) - (min : ℚ) + 1)⌋ < max - min + 1 :=
    Int.floor_lt.mpr (by push_cast; linarith)
  refine ⟨?_, ?_, fun _ _ => rfl, fun d => ⟨rfl, rfl⟩, fun v d hv => by simp [orDefault, hv]⟩
  · unfold randInt
    omega
  · unfold randInt
    omega

/-- Witness for C9: with the default range 30–90 and draw 1/2, the delay is
within [30, 90]. -/
theorem randInt_in_range_witness :
    30 ≤ randInt 30 90 (1 / 2) ∧ randInt 30 90 (1 / 2) ≤ 90 :=
  ⟨(randInt_in_range 30 90 (1 / 2) (by norm_num) (by norm_num) (by norm_num)).1,
   (randInt_in_range 30 90 (1 / 2) (by norm_num) (by norm_num) (by norm_num)).2.1⟩

/-- C10 (counterexample): the gateway can return a payload that violates
the supplied schema.  On the response text `"17"` — valid JSON that is not
an object of the score/rationale shape — `sendToLLM` with the
score/rationale schema returns the payload successfully even though it does
not validate, because the code only runs `JSON.parse` and performs no
client-side schema validation. -/
theorem sendToLLM_schema_violation_counterexample :
    sendToLLM (some GatewaySchema.scoreRationale) "17" =
      Except.ok (GatewayResult.json (Json.num 17)) ∧
    validate GatewaySchema.scoreRationale (Json.num 17) = false := ⟨rfl, rfl⟩

/-- C10 (amended): with a schema supplied, the gateway fails exactly when
the response text is not parseable as JSON; otherwise it returns the parsed
payload as-is, without client-side schema validation — the result is
independent of which schema was supplied, and a well-formed JSON payload is
returned even when it violates the schema (schema enforcement is delegated
to the external service via `strict: true`). -/
theorem sendToLLM_parses_without_validating (output_text : String) :
    (∀ s₁ s₂ : GatewaySchema,
      sendToLLM (some s₁) output_text = sendToLLM (some s₂) output_text) ∧
    (∀ (s : GatewaySchema) (v : Json), jsonParse output_text = some v →
      sendToLLM (some s) output_text = Except.ok (GatewayResult.json v)) ∧
    (∀ s : GatewaySchema, jsonParse output_text = none →
      ∃ e, sendToLLM (some s) output_text = Except.error e) ∧
    sendToLLM none output_text = Except.ok (GatewayResult.text output_text) := by
  refine ⟨fun s₁ s₂ => rfl, fun s v hv => ?_, fun s hv => ?_, rfl⟩
  · simp [sendToLLM, hv]
  · exact ⟨"SyntaxError: unexpected token in JSON", by simp [sendToLLM, hv]⟩

/-- Witness for the amended C10: a payload of valid JSON (`true`) is
returned as-is under the score/rationale schema. -/
theorem sendToLLM_parses_without_validating_witness :
    sendToLLM (some GatewaySchema.scoreRationale) "true" =
      Except.ok (GatewayResult.json (Json.bool true)) :=
  (sendToLLM_parses_without_validating "true").2.1 GatewaySchema.scoreRationale
    (Json.bool true) (by rfl)

end Applyomatic
